import Mathlib

/-!
Verification of the GitHub-Actions security analyzer (`analyzer.py`).

The analyzer receives a workflow file parsed from YAML into Python data
(`dict` / `list` / `str`), runs a fixed registry of security checks against
it and returns an overall pass/fail verdict together with the list of
failed check names.  This file gives a shallow embedding of that code:

* `Val` models a parsed YAML value (workflow scalars are strings; other
  YAML scalars do not occur in the analyzed fields).
* `pyGet`, `pyIn`, `pyIterL`, `asStr` model the Python subscript,
  membership, iteration and re-module string-argument operations,
  including the exceptions they raise (`Except.error`).
* Each `_check_for_*` method of the `Analyzer` class is translated to a
  function returning `Except String Bool` (`Bool` is the method's
  `passed` result; `error` models an uncaught Python exception).
* The regular-expression searches of the source are implemented as
  deterministic scanners that decide exactly whether `re.search` finds a
  match: every character class in the patterns excludes `'\n'`, and the
  classes adjacent to each literal make maximal munch complete, so the
  scanners below decide the same languages.
-/

namespace Ghast

/-- A parsed YAML value as the analyzer receives it: scalars of the
analyzed fields are strings, sequences are Python lists, mappings are
Python dicts (insertion-ordered association lists with unique keys). -/
inductive Val where
  | str : String → Val
  | list : List Val → Val
  | dict : List (String × Val) → Val

/-- Python `value == some_string`: only an equal `str` compares equal. -/
def Val.eqStr : Val → String → Bool
  | .str s, t => s == t
  | _, _ => false

/-- Boolean "pat is a prefix of l" on character lists. -/
def listPrefix : List Char → List Char → Bool
  | [], _ => true
  | _ :: _, [] => false
  | p :: ps, c :: cs => p == c && listPrefix ps cs

/-- Boolean "pat occurs as a contiguous substring of l". -/
def listInfix (pat : List Char) : List Char → Bool
  | [] => listPrefix pat []
  | c :: rest => listPrefix pat (c :: rest) || listInfix pat rest

/-- Python `key in value`: dict → key membership, list → element equality
with the string, str → substring test.  Total on all three shapes. -/
def pyIn (key : String) : Val → Bool
  | .str s => listInfix key.data s.data
  | .list xs => xs.any (fun v => v.eqStr key)
  | .dict kvs => kvs.any (fun kv => kv.1 == key)

/-- Python `value[key]` with a string key: succeeds only on a dict that
has the key (`KeyError` otherwise); indexing a str or list with a string
raises `TypeError`. -/
def pyGet (v : Val) (key : String) : Except String Val :=
  match v with
  | .dict kvs =>
    match kvs.find? (fun kv => kv.1 == key) with
    | some kv => .ok kv.2
    | none => .error "KeyError"
  | _ => .error "TypeError"

/-- Python `for x in value`: a list yields its elements, a dict its keys,
a str its one-character substrings.  All three shapes iterate without
raising. -/
def pyIterL : Val → List Val
  | .str s => s.data.map (fun c => Val.str (String.mk [c]))
  | .list xs => xs
  | .dict kvs => kvs.map (fun kv => Val.str kv.1)

/-- `re.search(pattern, value)` requires a string argument and raises
`TypeError` on a list or dict. -/
def asStr : Val → Except String String
  | .str s => .ok s
  | _ => .error "TypeError"

/-- The regex class `[\w-]` (ASCII part): letters, digits, underscore,
hyphen. -/
def isWordHyphen (c : Char) : Bool :=
  c.isAlphanum || c == '_' || c == '-'

/-- The regex class `[a-f0-9]`. -/
def isHexLower (c : Char) : Bool :=
  ('a' ≤ c && c ≤ 'f') || ('0' ≤ c && c ≤ '9')

/-- Consume one-or-more characters satisfying `p` (maximal munch),
returning the remainder; `none` when the first character fails `p`. -/
def after1 (p : Char → Bool) : List Char → Option (List Char)
  | [] => none
  | c :: rest => if p c then some (rest.dropWhile p) else none

/-- Match of `([\w-]+)\/([\w-]+)@v\d+(\.\d+)?(\.\d+)?` anchored at the
start of `l` (the source's `ACTION_WITH_VERSION_REGEX`).  `'/'` and `'@'`
are outside `[\w-]`, so the greedy runs are forced and the two optional
groups may match empty, making this deterministic scan complete. -/
def matchActionVersionAt (l : List Char) : Bool :=
  match after1 isWordHyphen l with
  | none => false
  | some l1 =>
    match l1 with
    | [] => false
    | c1 :: l2 =>
      c1 == '/'
        && (match after1 isWordHyphen l2 with
            | none => false
            | some l3 =>
              match l3 with
              | c2 :: c3 :: l4 =>
                c2 == '@' && c3 == 'v'
                  && (match l4 with
                      | d :: _ => d.isDigit
                      | [] => false)
              | _ => false)

/-- `re.search`: try the anchored matcher at every start position. -/
def searchAt (m : List Char → Bool) : List Char → Bool
  | [] => m []
  | c :: rest => m (c :: rest) || searchAt m rest

/-- `re.search(ACTION_WITH_VERSION_REGEX, s)` is not `None`. -/
def searchActionVersion (s : String) : Bool :=
  searchAt matchActionVersionAt s.data

/-- Strip `pat` from the front of `l`, returning the remainder. -/
def stripPfx : List Char → List Char → Option (List Char)
  | [], l => some l
  | _ :: _, [] => none
  | p :: ps, c :: cs => if p == c then stripPfx ps cs else none

/-- Match of `LIT@(v\d+(\.\d+)?(\.\d+)?|[a-f0-9]{40})` anchored at the
start of `l`, where `lit` is the literal including the `@`.  Used for the
source's `CACHE_ACTION_REGEX` and `CONFIGURE_AWS_CREDS_ACTION_REGEX`. -/
def matchActionRefAt (lit : List Char) (l : List Char) : Bool :=
  match stripPfx lit l with
  | none => false
  | some r =>
    (match r with
     | 'v' :: d :: _ => d.isDigit
     | _ => false)
    || ((r.take 40).length == 40 && (r.take 40).all isHexLower)

/-- `re.search(CACHE_ACTION_REGEX, s)` is not `None`. -/
def searchCache (s : String) : Bool :=
  searchAt (matchActionRefAt ("actions/cache@".data)) s.data

/-- `re.search(CONFIGURE_AWS_CREDS_ACTION_REGEX, s)` is not `None`. -/
def searchAws (s : String) : Bool :=
  searchAt (matchActionRefAt ("aws-actions/configure-aws-credentials@".data)) s.data

/-- Split a character list at newlines.  The `.` of the source's regexes
does not match `'\n'` (no DOTALL flag), and every other atom of those
patterns also excludes `'\n'`, so a match never spans two lines. -/
def splitLinesAux (cur : List Char) : List Char → List (List Char)
  | [] => [cur.reverse]
  | c :: rest =>
    if c == '\n' then cur.reverse :: splitLinesAux [] rest
    else splitLinesAux (c :: cur) rest

/-- All lines of a character list. -/
def splitLines (l : List Char) : List (List Char) :=
  splitLinesAux [] l

/-- Remainder of `l` after the first occurrence of `pat`; `none` when
`pat` does not occur.  Taking the first occurrence is complete for the
existence of a match of `pat.*suffix‐pattern`. -/
def dropAfterFirst (pat : List Char) : List Char → Option (List Char)
  | [] => if listPrefix pat [] then some [] else none
  | c :: rest =>
    if listPrefix pat (c :: rest) then some ((c :: rest).drop pat.length)
    else dropAfterFirst pat rest

/-- Line-local match of `\$\{\{.*github.+\}\}` (the source's
`DANGEROUS_GITHUB_CONTEXT_VARIABLE_REGEX`): an interpolation opener, then
`github` anywhere after it, then at least one character, then a closer. -/
def lineHasGithubExpr (l : List Char) : Bool :=
  match dropAfterFirst ("$\x7b\x7b".data) l with
  | none => false
  | some r1 =>
    match dropAfterFirst ("github".data) r1 with
    | none => false
    | some r2 =>
      match r2 with
      | [] => false
      | _ :: r3 => listInfix ("\x7d\x7d".data) r3

/-- `re.search(DANGEROUS_GITHUB_CONTEXT_VARIABLE_REGEX, s)` is not
`None`. -/
def searchGithubExpr (s : String) : Bool :=
  (splitLines s.data).any lineHasGithubExpr

/-- Line-local match of `gh pr (review.*--approve|create.*)` (the
source's `GH_CLI_PR_APPROVAL_REGEX`). -/
def lineHasPrCmd (l : List Char) : Bool :=
  (match dropAfterFirst ("gh pr review".data) l with
   | none => false
   | some r => listInfix ("--approve".data) r)
  || listInfix ("gh pr create".data) l

/-- `re.search(GH_CLI_PR_APPROVAL_REGEX, s)` is not `None`. -/
def searchPrApproval (s : String) : Bool :=
  (splitLines s.data).any lineHasPrCmd

/-! ## The ten check methods

Each function is the translation of the correspondingly-named
`Analyzer._check_for_*` method, run with `verbose = False` (the verbose
diagnostics are delegated reporting and never affect the result; the
analyzer is modelled in its non-verbose configuration).  A check receives
the already-extracted `jobs` dict (`self.jobs`) and, where the source
reads it, the whole document (`self.action`). -/

/-- Inner loop of `_check_for_3p_actions_without_hash` for one job's
steps: the source `break`s out of the step loop at the first step whose
`uses` matches `ACTION_WITH_VERSION_REGEX`, so later steps of that job
are not examined. -/
def findVersionedStep : List Val → Except String Bool
  | [] => .ok false
  | st :: rest =>
    if pyIn "uses" st then
      match pyGet st "uses" with
      | .error e => .error e
      | .ok u =>
        match asStr u with
        | .error e => .error e
        | .ok s => if searchActionVersion s then .ok true else findVersionedStep rest
    else findVersionedStep rest

/-- `_check_for_3p_actions_without_hash`: fails when any job has a step
whose `uses` matches the version-tag pattern.  The `break` only leaves
the inner step loop; the remaining jobs are still scanned. -/
def check_for_3p_actions_without_hash : List (String × Val) → Except String Bool
  | [] => .ok true
  | (_, jv) :: rest =>
    match pyGet jv "steps" with
    | .error e => .error e
    | .ok steps =>
      match findVersionedStep (pyIterL steps) with
      | .error e => .error e
      | .ok found =>
        match check_for_3p_actions_without_hash rest with
        | .error e => .error e
        | .ok restOk => .ok (!found && restOk)

/-- Inner loop of `_check_for_allow_unsecure_commands`: first step whose
`env` contains the dangerous key; the source `return`s immediately. -/
def unsecureSteps : List Val → Except String Bool
  | [] => .ok false
  | st :: rest =>
    if pyIn "env" st then
      match pyGet st "env" with
      | .error e => .error e
      | .ok env =>
        if pyIn "ACTIONS_ALLOW_UNSECURE_COMMANDS" env then .ok true
        else unsecureSteps rest
    else unsecureSteps rest

/-- `_check_for_allow_unsecure_commands`: returns `False` at the first
step whose `env` mapping contains `ACTIONS_ALLOW_UNSECURE_COMMANDS`. -/
def check_for_allow_unsecure_commands : List (String × Val) → Except String Bool
  | [] => .ok true
  | (_, jv) :: rest =>
    match pyGet jv "steps" with
    | .error e => .error e
    | .ok steps =>
      match unsecureSteps (pyIterL steps) with
      | .error e => .error e
      | .ok found => if found then .ok false else check_for_allow_unsecure_commands rest

/-- Inner loop of `_check_for_cache_action_usage`: scans every step (no
break), remembering whether any `uses` matches the cache-action
pattern. -/
def cacheSteps : List Val → Except String Bool
  | [] => .ok false
  | st :: rest =>
    match
      (if pyIn "uses" st then
        match pyGet st "uses" with
        | .error e => .error e
        | .ok u =>
          match asStr u with
          | .error e => .error e
          | .ok s => .ok (searchCache s)
      else .ok false : Except String Bool) with
    | .error e => .error e
    | .ok here =>
      match cacheSteps rest with
      | .error e => .error e
      | .ok there => .ok (here || there)

/-- `_check_for_cache_action_usage`: fails when any step uses
`actions/cache` (version tag or 40-hex hash); all steps of all jobs are
scanned. -/
def check_for_cache_action_usage : List (String × Val) → Except String Bool
  | [] => .ok true
  | (_, jv) :: rest =>
    match pyGet jv "steps" with
    | .error e => .error e
    | .ok steps =>
      match cacheSteps (pyIterL steps) with
      | .error e => .error e
      | .ok found =>
        match check_for_cache_action_usage rest with
        | .error e => .error e
        | .ok restOk => .ok (!found && restOk)

/-- The `dangerous_scopes` list of the source. -/
def dangerous_scopes : List String :=
  ["contents", "deployments", "packages", "actions"]

/-- The scope loop of `_check_for_dangerous_write_permissions`: the first
scope that is `in permissions` with `permissions[scope] == "write"`
triggers an early `return`.  Note `scope in permissions` on a string
permissions value is a substring test, and the subsequent subscript on a
non-dict raises `TypeError`. -/
def scopeWrite (perms : Val) : List String → Except String Bool
  | [] => .ok false
  | sc :: rest =>
    if pyIn sc perms then
      match pyGet perms sc with
      | .error e => .error e
      | .ok v => if v.eqStr "write" then .ok true else scopeWrite perms rest
    else scopeWrite perms rest

/-- The job loop of `_check_for_dangerous_write_permissions`.  A
job-level `write-all` clears `passed` but does not return: the scope loop
still runs on that value and later jobs are still scanned.  A scope set
to `write` returns `False` immediately. -/
def permsJobs (passed : Bool) : List (String × Val) → Except String Bool
  | [] => .ok passed
  | (_, jv) :: rest =>
    if pyIn "permissions" jv then
      match pyGet jv "permissions" with
      | .error e => .error e
      | .ok perms =>
        match scopeWrite perms dangerous_scopes with
        | .error e => .error e
        | .ok found =>
          if found then .ok false
          else permsJobs (passed && !(perms.eqStr "write-all")) rest
    else permsJobs passed rest

/-- `_check_for_dangerous_write_permissions`: document-level `write-all`
or a document-level dangerous scope set to `write` returns `False`
immediately; otherwise the job loop decides. -/
def check_for_dangerous_write_permissions (action : Val) (jobs : List (String × Val)) :
    Except String Bool :=
  if pyIn "permissions" action then
    match pyGet action "permissions" with
    | .error e => .error e
    | .ok perms =>
      if perms.eqStr "write-all" then .ok false
      else
        match scopeWrite perms dangerous_scopes with
        | .error e => .error e
        | .ok found => if found then .ok false else permsJobs true jobs
  else permsJobs true jobs

/-- `_check_for_inline_script`: fails when any step of any job has a
`run` key; the loop body is total, and all jobs are scanned. -/
def check_for_inline_script : List (String × Val) → Except String Bool
  | [] => .ok true
  | (_, jv) :: rest =>
    match pyGet jv "steps" with
    | .error e => .error e
    | .ok steps =>
      match check_for_inline_script rest with
      | .error e => .error e
      | .ok restOk => .ok (!((pyIterL steps).any (fun st => pyIn "run" st)) && restOk)

/-- `_check_for_pull_request_target`: reads `self.action["on"]` and tests
membership of `pull_request_target` for the list and dict shapes, and
equality for the str shape. -/
def check_for_pull_request_target (action : Val) : Except String Bool :=
  match pyGet action "on" with
  | .error e => .error e
  | .ok ev =>
    match ev with
    | .list xs => .ok (!(xs.any (fun v => v.eqStr "pull_request_target")))
    | .dict kvs => .ok (!(kvs.any (fun kv => kv.1 == "pull_request_target")))
    | .str s => .ok (!(s == "pull_request_target"))

/-- Inner loop of `_check_for_script_injection`: scans every step (no
break), testing each `run` script against the dangerous-context
pattern. -/
def injectionSteps : List Val → Except String Bool
  | [] => .ok false
  | st :: rest =>
    match
      (if pyIn "run" st then
        match pyGet st "run" with
        | .error e => .error e
        | .ok r =>
          match asStr r with
          | .error e => .error e
          | .ok s => .ok (searchGithubExpr s)
      else .ok false : Except String Bool) with
    | .error e => .error e
    | .ok here =>
      match injectionSteps rest with
      | .error e => .error e
      | .ok there => .ok (here || there)

/-- `_check_for_script_injection`: fails when any step's `run` script
contains a `github.*` context interpolation. -/
def check_for_script_injection : List (String × Val) → Except String Bool
  | [] => .ok true
  | (_, jv) :: rest =>
    match pyGet jv "steps" with
    | .error e => .error e
    | .ok steps =>
      match injectionSteps (pyIterL steps) with
      | .error e => .error e
      | .ok found =>
        match check_for_script_injection rest with
        | .error e => .error e
        | .ok restOk => .ok (!found && restOk)

/-- The `default_runners` allow-list of the source. -/
def default_runners : List String :=
  ["windows-latest", "windows-2022", "windows-2019", "ubuntu-latest",
   "ubuntu-22.04", "ubuntu-20.04", "macos-13", "macos-13-xl", "macos-latest",
   "macos-12", "macos-latest-xl", "macos-12-xl", "macos-11"]

/-- Python `runner not in default_runners`: a non-string value is never a
member of the string list. -/
def notDefault (v : Val) : Bool :=
  !(default_runners.any (fun d => v.eqStr d))

/-- `_check_for_self_hosted_runners`: per job, first the
`strategy.matrix.runner` list (a non-default entry `break`s, which
immediately reaches the final `return passed`), then the `runs-on` field
in its three shapes. -/
def check_for_self_hosted_runners : List (String × Val) → Except String Bool
  | [] => .ok true
  | (_, jv) :: rest =>
    match
      (if pyIn "strategy" jv then
        match pyGet jv "strategy" with
        | .error e => .error e
        | .ok strat =>
          if pyIn "matrix" strat then
            match pyGet strat "matrix" with
            | .error e => .error e
            | .ok matrix =>
              if pyIn "runner" matrix then
                match pyGet matrix "runner" with
                | .error e => .error e
                | .ok runner =>
                  match runner with
                  | .list xs => .ok (xs.any notDefault)
                  | _ => .ok false
              else .ok false
          else .ok false
      else .ok false : Except String Bool) with
    | .error e => .error e
    | .ok matrixBad =>
      if matrixBad then .ok false
      else
        if pyIn "runs-on" jv then
          match pyGet jv "runs-on" with
          | .error e => .error e
          | .ok ro =>
            match ro with
            | .list xs =>
              if xs.any notDefault then .ok false
              else check_for_self_hosted_runners rest
            | .dict _ =>
              if pyIn "group" ro then
                match pyGet ro "group" with
                | .error e => .error e
                | .ok g =>
                  if notDefault g then .ok false
                  else check_for_self_hosted_runners rest
              else check_for_self_hosted_runners rest
            | .str s =>
              if notDefault (.str s) then .ok false
              else check_for_self_hosted_runners rest
        else check_for_self_hosted_runners rest

/-- The `non_oidc_inputs` list of the source. -/
def non_oidc_inputs : List String :=
  ["aws-access-key-id", "web-identity-token-file"]

/-- Inner loop of `_check_for_aws_configure_credentials_non_oidc`.  For a
step whose `uses` matches the credentials action the source evaluates
`any(input in non_oidc_inputs for input in step["with"])` — raising
`KeyError` when the step has no `with` — but that test only guards the
verbose diagnostic: `passed` is cleared by the separate
`if passed: passed = False` whenever the action matched at all. -/
def awsSteps : List Val → Except String Bool
  | [] => .ok false
  | st :: rest =>
    match
      (if pyIn "uses" st then
        match pyGet st "uses" with
        | .error e => .error e
        | .ok u =>
          match asStr u with
          | .error e => .error e
          | .ok s =>
            if searchAws s then
              match pyGet st "with" with
              | .error e => .error e
              | .ok w =>
                let _nonOidc :=
                  (pyIterL w).any (fun i => non_oidc_inputs.any (fun n => i.eqStr n))
                .ok true
            else .ok false
      else .ok false : Except String Bool) with
    | .error e => .error e
    | .ok here =>
      match awsSteps rest with
      | .error e => .error e
      | .ok there => .ok (here || there)

/-- `_check_for_aws_configure_credentials_non_oidc`: fails when any step
uses the `configure-aws-credentials` action (its `with` inputs are read
but do not influence the result); all steps of all jobs are scanned. -/
def check_for_aws_configure_credentials_non_oidc : List (String × Val) → Except String Bool
  | [] => .ok true
  | (_, jv) :: rest =>
    match pyGet jv "steps" with
    | .error e => .error e
    | .ok steps =>
      match awsSteps (pyIterL steps) with
      | .error e => .error e
      | .ok found =>
        match check_for_aws_configure_credentials_non_oidc rest with
        | .error e => .error e
        | .ok restOk => .ok (!found && restOk)

/-- Inner loop of `_check_for_pull_request_create_or_approve`: scans every
step's `run` script against the gh-CLI pattern (no break). -/
def prCmdSteps : List Val → Except String Bool
  | [] => .ok false
  | st :: rest =>
    match
      (if pyIn "run" st then
        match pyGet st "run" with
        | .error e => .error e
        | .ok r =>
          match asStr r with
          | .error e => .error e
          | .ok s => .ok (searchPrApproval s)
      else .ok false : Except String Bool) with
    | .error e => .error e
    | .ok here =>
      match prCmdSteps rest with
      | .error e => .error e
      | .ok there => .ok (here || there)

/-- `_check_for_pull_request_create_or_approve`: fails when any step's
`run` script creates or approves a pull request via the gh CLI. -/
def check_for_pull_request_create_or_approve : List (String × Val) → Except String Bool
  | [] => .ok true
  | (_, jv) :: rest =>
    match pyGet jv "steps" with
    | .error e => .error e
    | .ok steps =>
      match prCmdSteps (pyIterL steps) with
      | .error e => .error e
      | .ok found =>
        match check_for_pull_request_create_or_approve rest with
        | .error e => .error e
        | .ok restOk => .ok (!found && restOk)

/-! ## Registry and engine -/

/-- The `self.checks` registry: insertion-ordered names with severity
levels, exactly as built in `Analyzer.__init__`. -/
def checksList : List (String × String) :=
  [("_check_for_3p_actions_without_hash", "FAIL"),
   ("_check_for_allow_unsecure_commands", "FAIL"),
   ("_check_for_cache_action_usage", "WARN"),
   ("_check_for_dangerous_write_permissions", "FAIL"),
   ("_check_for_inline_script", "WARN"),
   ("_check_for_pull_request_target", "FAIL"),
   ("_check_for_script_injection", "FAIL"),
   ("_check_for_self_hosted_runners", "WARN"),
   ("_check_for_aws_configure_credentials_non_oidc", "WARN"),
   ("_check_for_pull_request_create_or_approve", "FAIL")]

/-- `Analyzer.get_checks`: the registry keys in insertion order. -/
def get_checks : List String :=
  checksList.map (fun p => p.1)

/-- Severity of a registry entry, by name. -/
def levelOf (n : String) : Option String :=
  (checksList.find? (fun p => p.1 == n)).map (fun p => p.2)

/-- `Analyzer._action_has_required_elements`, reached with `self.jobs`
already known to be a dict: the three top-level keys must be present and
every job value must contain `steps` (for a non-dict job value this is
Python membership, e.g. a substring test on a string). -/
def action_has_required_elements (action : Val) (jobs : List (String × Val)) : Bool :=
  (pyIn "name" action && pyIn "on" action && pyIn "jobs" action)
    && jobs.all (fun kv => pyIn "steps" kv.2)

/-- Dispatch `Analyzer.__dict__[check](self)` by registry name. -/
def runCheck (action : Val) (jobs : List (String × Val)) : String → Except String Bool
  | "_check_for_3p_actions_without_hash" => check_for_3p_actions_without_hash jobs
  | "_check_for_allow_unsecure_commands" => check_for_allow_unsecure_commands jobs
  | "_check_for_cache_action_usage" => check_for_cache_action_usage jobs
  | "_check_for_dangerous_write_permissions" => check_for_dangerous_write_permissions action jobs
  | "_check_for_inline_script" => check_for_inline_script jobs
  | "_check_for_pull_request_target" => check_for_pull_request_target action
  | "_check_for_script_injection" => check_for_script_injection jobs
  | "_check_for_self_hosted_runners" => check_for_self_hosted_runners jobs
  | "_check_for_aws_configure_credentials_non_oidc" =>
      check_for_aws_configure_credentials_non_oidc jobs
  | "_check_for_pull_request_create_or_approve" =>
      check_for_pull_request_create_or_approve jobs
  | _ => .error "KeyError"

/-- The two `continue` conditions of the `run_checks` loop, as a filter
over the registry: a check is skipped when `ignore_warnings` is set and
its level is `WARN`, or when its name with the leading underscore
stripped (`check[1:]`) is in `ignore_checks`. -/
def applicable (ignore_checks : List String) (ignore_warnings : Bool) :
    List (String × String) :=
  checksList.filter (fun p =>
    !(ignore_warnings && p.2 == "WARN")
      && !(ignore_checks.any (fun ic => ic == p.1.drop 1)))

/-- The evaluation loop of `run_checks` over the non-skipped registry
entries, accumulating the names of failed checks in registry order. -/
def evalChecks (action : Val) (jobs : List (String × Val)) :
    List (String × String) → Except String (List String)
  | [] => .ok []
  | (name, _) :: rest =>
    match runCheck action jobs name with
    | .error e => .error e
    | .ok passed =>
      match evalChecks action jobs rest with
      | .error e => .error e
      | .ok tail => .ok (if passed then tail else name :: tail)

/-- `Analyzer.run_checks`: extract `self.jobs = action["jobs"]` (KeyError
when absent, TypeError when `action` is not a dict, AttributeError from
`self.jobs.keys()` when the jobs value is not a dict), gate, then run the
non-skipped checks; the result pairs `passed_all_checks` with the list of
failed check names the source accumulates (and prints). -/
def run_checks (ignore_checks : List String) (ignore_warnings : Bool) (action : Val) :
    Except String (Bool × List String) :=
  match pyGet action "jobs" with
  | .error e => .error e
  | .ok jobsVal =>
    match jobsVal with
    | .dict jobs =>
      if action_has_required_elements action jobs then
        match evalChecks action jobs (applicable ignore_checks ignore_warnings) with
        | .error e => .error e
        | .ok fails => .ok (fails.isEmpty, fails)
      else .ok (true, [])
    | _ => .error "AttributeError"

/-! ## Spec-side predicates -/

/-- Modelled from the spec's words: the trigger spec "includes
`pull_request_target`" when the trigger is that string, a sequence
containing it, or a mapping with it as a key. -/
def triggerIncludesPRT : Val → Bool
  | .str s => s == "pull_request_target"
  | .list xs => xs.any (fun v => v.eqStr "pull_request_target")
  | .dict kvs => kvs.any (fun kv => kv.1 == "pull_request_target")

/-- A `uses` reference that pins the action by a 40-character hex commit
SHA: `owner/repo@sha` with `owner`, `repo` nonempty words (over `[\w-]`)
and `sha` forty `[a-f0-9]` characters. -/
def shaPinned (u : String) : Bool :=
  match u.data.dropWhile isWordHyphen with
  | [] => false
  | c1 :: rest =>
    c1 == '/'
      && (match rest.dropWhile isWordHyphen with
          | [] => false
          | c2 :: h =>
            c2 == '@'
              && !(u.data.takeWhile isWordHyphen).isEmpty
              && !(rest.takeWhile isWordHyphen).isEmpty
              && h.length == 40 && h.all isHexLower)

/-- A document-level `permissions` value of one of the shapes the spec's
data model allows: the `write-all` literal or a scope mapping. -/
def permsShaped : Val → Bool
  | .str s => s == "write-all"
  | .dict _ => true
  | _ => false

/-- Head of a character list is `'v'`. -/
def headIsV : List Char → Bool
  | [] => false
  | c :: _ => c == 'v'

/-- Some position of the list starts the two-character sequence
`"@v"`. -/
def hasAtV : List Char → Bool
  | [] => false
  | a :: rest => (a == '@' && headIsV rest) || hasAtV rest

/-- The `with` inputs of a step that configures AWS credentials purely
via OIDC (no long-lived-credential input). -/
def c2with : Val :=
  Val.dict [("role-to-assume", Val.str "arn:aws:iam::123456789012:role/deploy"),
            ("aws-region", Val.str "us-east-1")]

/-- A jobs mapping whose only step uses the credentials action with only
OIDC inputs. -/
def c2jobs : List (String × Val) :=
  [("deploy", Val.dict [("steps", Val.list [Val.dict
    [("uses", Val.str "aws-actions/configure-aws-credentials@v4"),
     ("with", c2with)]])])]

/-- A gate-passing document whose only step uses the credentials action
but has no `with` mapping at all. -/
def c3doc : Val :=
  Val.dict [("name", Val.str "ci"), ("on", Val.str "push"),
    ("jobs", Val.dict [("deploy", Val.dict [("steps", Val.list [Val.dict
      [("uses", Val.str "aws-actions/configure-aws-credentials@v1")]])])])]

/-- A gate-passing document (empty jobs mapping) whose sequence-shaped
trigger includes `pull_request_target`. -/
def c4doc : Val :=
  Val.dict [("name", Val.str "ci"), ("on", Val.list [Val.str "pull_request_target"]),
            ("jobs", Val.dict [])]

/-- A gate-passing document (empty jobs mapping) whose string-shaped
trigger is `pull_request_target`. -/
def c5doc : Val :=
  Val.dict [("name", Val.str "ci"), ("on", Val.str "pull_request_target"),
            ("jobs", Val.dict [])]

/-- A gate-passing document with document-level `write-all` permissions
and read-only job-level permissions. -/
def c6doc : Val :=
  Val.dict [("name", Val.str "ci"), ("on", Val.str "push"),
    ("permissions", Val.str "write-all"),
    ("jobs", Val.dict [("build", Val.dict [("steps", Val.list []),
      ("permissions", Val.dict [("contents", Val.str "read")])])])]

/-- The jobs mapping of `c6doc`. -/
def c6jobs : List (String × Val) :=
  [("build", Val.dict [("steps", Val.list []),
    ("permissions", Val.dict [("contents", Val.str "read")])])]

/-- A jobs mapping whose single job has one SHA-pinned `uses` step and
one inline-script step without `uses`. -/
def c7jobs : List (String × Val) :=
  [("build", Val.dict [("steps", Val.list
    [Val.dict [("uses", Val.str "actions/checkout@8f4b7f84864484a7bf31766abe9204da3cbe65b3")],
     Val.dict [("run", Val.str "make")]])])]

/-- Registry names whose severity is `FAIL`. -/
def failLevelName (n : String) : Bool :=
  levelOf n == some "FAIL"

/-- A gate-passing document whose only violation is an inline script
(a WARN-severity rule). -/
def c8doc : Val :=
  Val.dict [("name", Val.str "ci"), ("on", Val.str "push"),
    ("jobs", Val.dict [("build", Val.dict [("steps", Val.list
      [Val.dict [("run", Val.str "make")]])])])]

/-- A document with `name`, a `pull_request_target` trigger and an empty
jobs mapping. -/
def c10doc : Val :=
  Val.dict [("name", Val.str "ci"), ("on", Val.str "pull_request_target"),
            ("jobs", Val.dict [])]

/-! ## Helper lemmas -/

lemma pyGet_ok_pyIn {a : Val} {k : String} {v : Val} (h : pyGet a k = .ok v) :
    pyIn k a = true := by
  cases a with
  | str s => simp [pyGet] at h
  | list xs => simp [pyGet] at h
  | dict kvs =>
    simp only [pyGet] at h
    cases hf : kvs.find? (fun kv => kv.1 == k) with
    | none => rw [hf] at h; cases h
    | some kv =>
      have hmem := List.mem_of_find?_eq_some hf
      have hpred := List.find?_some hf
      simp only [pyIn, List.any_eq_true]
      exact ⟨kv, hmem, hpred⟩

lemma filter_congr_on {α : Type} (l : List α) (p q : α → Bool)
    (h : ∀ a ∈ l, p a = q a) : l.filter p = l.filter q := by
  induction l with
  | nil => rfl
  | cons hd tl ih =>
    have hhd := h hd (List.mem_cons_self hd tl)
    have htl := ih (fun a ha => h a (List.mem_cons_of_mem hd ha))
    simp only [List.filter_cons, hhd, htl]

lemma filter_all_true {α : Type} (l : List α) (p : α → Bool)
    (h : ∀ a ∈ l, p a = true) : l.filter p = l := by
  induction l with
  | nil => rfl
  | cons hd tl ih =>
    have hhd := h hd (List.mem_cons_self hd tl)
    have htl := ih (fun a ha => h a (List.mem_cons_of_mem hd ha))
    simp [List.filter_cons, hhd, htl]

lemma filter_all_false {α : Type} (l : List α) (p : α → Bool)
    (h : ∀ a ∈ l, p a = false) : l.filter p = [] := by
  induction l with
  | nil => rfl
  | cons hd tl ih =>
    have hhd := h hd (List.mem_cons_self hd tl)
    have htl := ih (fun a ha => h a (List.mem_cons_of_mem hd ha))
    simp [List.filter_cons, hhd, htl]

lemma filter_filter_on {α : Type} (l : List α) (p q : α → Bool) :
    (l.filter p).filter q = l.filter (fun a => p a && q a) := by
  induction l with
  | nil => rfl
  | cons hd tl ih =>
    by_cases hp : p hd = true
    · by_cases hq : q hd = true
      · simp [List.filter_cons, hp, hq, ih]
      · simp [List.filter_cons, hp, Bool.eq_false_iff.mpr hq, ih]
    · simp [List.filter_cons, Bool.eq_false_iff.mpr hp, ih]

/-- The evaluation loop restricted by a name-based filter: every check
evaluated by the filtered run was evaluated with the same result in the
full run, so the failure list is the filtered one. -/
lemma evalChecks_filter (a : Val) (jobs : List (String × Val)) (P : String → Bool) :
    ∀ (L : List (String × String)) (fails : List String),
      evalChecks a jobs L = .ok fails →
      evalChecks a jobs (L.filter (fun p => P p.1)) = .ok (fails.filter P) := by
  intro L
  induction L with
  | nil =>
    intro fails h
    simp only [evalChecks] at h
    cases h
    simp [evalChecks]
  | cons hd tl ih =>
    intro fails h
    obtain ⟨name, lvl⟩ := hd
    simp only [evalChecks] at h
    cases hrc : runCheck a jobs name with
    | error e => rw [hrc] at h; cases h
    | ok passed =>
      rw [hrc] at h
      cases het : evalChecks a jobs tl with
      | error e => rw [het] at h; cases h
      | ok tail =>
        rw [het] at h
        cases h
        have ihtl := ih tail het
        by_cases hP : P name = true
        · simp only [List.filter_cons, hP, if_pos rfl]
          simp only [evalChecks, hrc, ihtl]
          cases passed with
          | true => simp
          | false => simp [List.filter_cons, hP]
        · have hP' : P name = false := Bool.eq_false_iff.mpr hP
          simp only [List.filter_cons, hP']
          simp only [Bool.false_eq_true, if_false]
          rw [ihtl]
          cases passed with
          | true => simp
          | false => simp [List.filter_cons, hP']

/-- The failure list is a sublist of the evaluated names. -/
lemma evalChecks_sublist (a : Val) (jobs : List (String × Val)) :
    ∀ (L : List (String × String)) (fails : List String),
      evalChecks a jobs L = .ok fails →
      fails.Sublist (L.map (fun p => p.1)) := by
  intro L
  induction L with
  | nil =>
    intro fails h
    simp only [evalChecks] at h
    cases h
    simp
  | cons hd tl ih =>
    intro fails h
    obtain ⟨name, lvl⟩ := hd
    simp only [evalChecks] at h
    cases hrc : runCheck a jobs name with
    | error e => rw [hrc] at h; cases h
    | ok passed =>
      rw [hrc] at h
      cases het : evalChecks a jobs tl with
      | error e => rw [het] at h; cases h
      | ok tail =>
        rw [het] at h
        cases h
        have ihtl := ih tail het
        cases passed with
        | true => exact List.Sublist.cons name (by simpa using ihtl)
        | false => simpa using List.Sublist.cons₂ name ihtl

lemma hasAtV_append {xs ys : List Char} (hxs : ∀ c ∈ xs, (c == '@') = false)
    (hys : hasAtV ys = false) : hasAtV (xs ++ ys) = false := by
  induction xs with
  | nil => simpa using hys
  | cons c rest ih =>
    have hc := hxs c (List.mem_cons_self c rest)
    have hrest := ih (fun a ha => hxs a (List.mem_cons_of_mem c ha))
    simp [hasAtV, hc, hrest]

lemma hasAtV_suffix {m l : List Char} (h : m <:+ l) (hm : hasAtV m = true) :
    hasAtV l = true := by
  obtain ⟨t, rfl⟩ := h
  induction t with
  | nil => simpa using hm
  | cons c t ih => simp [hasAtV, ih]

lemma dropWhile_isSuffix (p : Char → Bool) (l : List Char) :
    (l.dropWhile p) <:+ l := by
  induction l with
  | nil => exact ⟨[], rfl⟩
  | cons c rest ih =>
    by_cases hc : p c = true
    · simp only [List.dropWhile_cons, hc, if_pos rfl]
      obtain ⟨t, ht⟩ := ih
      exact ⟨c :: t, by simp [ht]⟩
    · simp only [List.dropWhile_cons, Bool.eq_false_iff.mpr hc]
      exact ⟨[], rfl⟩

lemma after1_suffix {p : Char → Bool} {l m : List Char} (h : after1 p l = some m) :
    m <:+ l := by
  cases l with
  | nil => simp [after1] at h
  | cons c rest =>
    simp only [after1] at h
    by_cases hc : p c = true
    · rw [if_pos hc] at h
      cases h
      exact (dropWhile_isSuffix p rest).trans ⟨[c], rfl⟩
    · rw [if_neg hc] at h; cases h

lemma matchActionVersionAt_hasAtV {l : List Char}
    (h : matchActionVersionAt l = true) : hasAtV l = true := by
  unfold matchActionVersionAt at h
  cases h1 : after1 isWordHyphen l with
  | none => rw [h1] at h; cases h
  | some l1 =>
    rw [h1] at h
    cases l1 with
    | nil => cases h
    | cons c1 l2 =>
      rw [Bool.and_eq_true] at h
      have hc1 : c1 = '/' := by simpa using h.1
      have h' := h.2
      cases h2 : after1 isWordHyphen l2 with
      | none => rw [h2] at h'; cases h'
      | some l3 =>
        rw [h2] at h'
        cases l3 with
        | nil => cases h'
        | cons c2 l3' =>
          cases l3' with
          | nil => cases h'
          | cons c3 l4 =>
            rw [Bool.and_eq_true, Bool.and_eq_true] at h'
            have hc2 : c2 = '@' := by simpa using h'.1.1
            have hc3 : c3 = 'v' := by simpa using h'.1.2
            have hl3 : hasAtV (c2 :: c3 :: l4) = true := by
              subst hc2 hc3
              simp [hasAtV, headIsV]
            have hsuf : (c2 :: c3 :: l4) <:+ l := by
              refine ((after1_suffix h2).trans ?_).trans (after1_suffix h1)
              exact ⟨[c1], rfl⟩
            exact hasAtV_suffix hsuf hl3

lemma searchAt_hasAtV {l : List Char}
    (h : searchAt matchActionVersionAt l = true) : hasAtV l = true := by
  induction l with
  | nil => simp [searchAt, matchActionVersionAt, after1] at h
  | cons c rest ih =>
    simp only [searchAt, Bool.or_eq_true] at h
    rcases h with h | h
    · exact matchActionVersionAt_hasAtV h
    · simp [hasAtV, ih h]

lemma mem_takeWhile_pred {p : Char → Bool} {l : List Char} {a : Char}
    (h : a ∈ l.takeWhile p) : p a = true := by
  induction l with
  | nil => simp [List.takeWhile] at h
  | cons c rest ih =>
    by_cases hc : p c = true
    · simp only [List.takeWhile_cons, hc, if_pos rfl] at h
      cases h with
      | head => exact hc
      | tail _ h => exact ih h
    · simp [List.takeWhile_cons, Bool.eq_false_iff.mpr hc] at h

lemma hasAtV_of_all_hex {l : List Char} (h : l.all isHexLower = true) :
    hasAtV l = false := by
  induction l with
  | nil => rfl
  | cons c rest ih =>
    simp only [List.all_cons, Bool.and_eq_true] at h
    have hc : (c == '@') = false := by
      cases hceq : c == '@' with
      | false => rfl
      | true =>
        have : c = '@' := by simpa using hceq
        rw [this] at h
        simp [isHexLower] at h
    simp [hasAtV, hc, ih h.2]

lemma wordHyphen_not_at {c : Char} (h : isWordHyphen c = true) : (c == '@') = false := by
  cases hceq : c == '@' with
  | false => rfl
  | true =>
    have : c = '@' := by simpa using hceq
    rw [this] at h
    simp [isWordHyphen] at h

/-- A SHA-pinned `uses` reference contains no `"@v"`, hence the
version-tag regex cannot match anywhere in it. -/
lemma shaPinned_hasAtV_false {u : String} (h : shaPinned u = true) :
    hasAtV u.data = false := by
  unfold shaPinned at h
  cases h1 : u.data.dropWhile isWordHyphen with
  | nil => rw [h1] at h; cases h
  | cons c1 rest =>
    rw [h1] at h
    rw [Bool.and_eq_true] at h
    have hc1 : c1 = '/' := by simpa using h.1
    have h' := h.2
    cases h2 : rest.dropWhile isWordHyphen with
    | nil => rw [h2] at h'; cases h'
    | cons c2 hh =>
      rw [h2] at h'
      rw [Bool.and_eq_true, Bool.and_eq_true, Bool.and_eq_true, Bool.and_eq_true] at h'
      have hc2 : c2 = '@' := by simpa using h'.1.1.1.1
      have hhex : hh.all isHexLower = true := h'.2
      have hu : u.data.takeWhile isWordHyphen ++ c1 :: rest = u.data := by
        rw [← h1]
        exact List.takeWhile_append_dropWhile isWordHyphen u.data
      have hrest : rest.takeWhile isWordHyphen ++ c2 :: hh = rest := by
        rw [← h2]
        exact List.takeWhile_append_dropWhile isWordHyphen rest
      rw [← hu, ← hrest]
      apply hasAtV_append
      · intro c hc
        exact wordHyphen_not_at (mem_takeWhile_pred hc)
      · have htail : hasAtV (c2 :: hh) = false := by
          have hhd : headIsV hh = false := by
            cases hh with
            | nil => rfl
            | cons d _ =>
              simp only [List.all_cons, Bool.and_eq_true] at hhex
              cases hdeq : d == 'v' with
              | false => simp [headIsV, hdeq]
              | true =>
                have : d = 'v' := by simpa using hdeq
                rw [this] at hhex
                simp [isHexLower] at hhex
          subst hc2
          simp [hasAtV, hhd, hasAtV_of_all_hex hhex]
        have hslash : hasAtV (c1 :: (rest.takeWhile isWordHyphen ++ c2 :: hh)) =
            hasAtV (rest.takeWhile isWordHyphen ++ c2 :: hh) := by
          subst hc1
          simp [hasAtV, headIsV]
        rw [hslash]
        apply hasAtV_append
        · intro c hc
          exact wordHyphen_not_at (mem_takeWhile_pred hc)
        · exact htail

/-- A SHA-pinned reference never matches `ACTION_WITH_VERSION_REGEX`. -/
lemma shaPinned_search_false {u : String} (h : shaPinned u = true) :
    searchActionVersion u = false := by
  cases hs : searchActionVersion u with
  | false => rfl
  | true =>
    have := searchAt_hasAtV (l := u.data) hs
    rw [shaPinned_hasAtV_false h] at this
    cases this

lemma pyIn_dict_get {k : String} {kvs : List (String × Val)}
    (h : pyIn k (.dict kvs) = true) : ∃ v, pyGet (.dict kvs) k = .ok v := by
  simp only [pyIn, List.any_eq_true] at h
  obtain ⟨kv, hmem, hpred⟩ := h
  have : (kvs.find? (fun kv => kv.1 == k)).isSome := by
    rw [List.find?_isSome]
    exact ⟨kv, hmem, hpred⟩
  cases hf : kvs.find? (fun kv => kv.1 == k) with
  | none => rw [hf] at this; cases this
  | some kv' => exact ⟨kv'.2, by simp [pyGet, hf]⟩

/-- The scope loop never raises on a dict permissions value. -/
lemma scopeWrite_dict_ok (kvs : List (String × Val)) :
    ∀ scopes, ∃ b, scopeWrite (.dict kvs) scopes = .ok b := by
  intro scopes
  induction scopes with
  | nil => exact ⟨false, rfl⟩
  | cons sc rest ih =>
    by_cases hin : pyIn sc (Val.dict kvs) = true
    · obtain ⟨v, hv⟩ := pyIn_dict_get hin
      by_cases hw : v.eqStr "write" = true
      · exact ⟨true, by simp [scopeWrite, hin, hv, hw]⟩
      · obtain ⟨b, hb⟩ := ih
        exact ⟨b, by simp [scopeWrite, hin, hv, Bool.eq_false_iff.mpr hw, hb]⟩
    · obtain ⟨b, hb⟩ := ih
      exact ⟨b, by simp [scopeWrite, Bool.eq_false_iff.mpr hin, hb]⟩

/-- Result of `_check_for_pull_request_target` in terms of the spec-side
trigger predicate: the rule returns `False` exactly when the trigger spec
includes `pull_request_target`. -/
lemma prt_result {action ev : Val} (h : pyGet action "on" = .ok ev) :
    check_for_pull_request_target action = .ok (!(triggerIncludesPRT ev)) := by
  unfold check_for_pull_request_target
  rw [h]
  cases ev <;> rfl

lemma applicable_nil_false : applicable [] false = checksList := by decide

lemma applicable_single (s : String) (iw : Bool) :
    applicable [s] iw = (applicable [] iw).filter (fun p => !(s == p.1.drop 1)) := by
  unfold applicable
  rw [filter_filter_on]
  apply filter_congr_on
  intro p _
  simp

/-- `get_checks` has no duplicate names. -/
lemma get_checks_nodup : get_checks.Nodup := by decide

/-- Stripping the leading underscore is injective on the registry
names. -/
lemma get_checks_drop_inj :
    ∀ a ∈ get_checks, ∀ b ∈ get_checks, a.drop 1 = b.drop 1 → a = b := by decide

lemma filter_eq_erase (l : List String) (X : String) (hnd : l.Nodup)
    (hops : ∀ n ∈ l, n ≠ X → (X.drop 1 == n.drop 1) = false) :
    l.filter (fun n => !(X.drop 1 == n.drop 1)) = l.erase X := by
  induction l with
  | nil => rfl
  | cons n rest ih =>
    have hnotmem : n ∉ rest := (List.nodup_cons.mp hnd).1
    have hndrest : rest.Nodup := (List.nodup_cons.mp hnd).2
    by_cases hn : n = X
    · subst hn
      have hpred : (fun m => !(n.drop 1 == m.drop 1)) n = false := by simp
      rw [List.filter_cons_of_neg (by simp)]
      rw [List.erase_cons_head]
      apply filter_all_true
      intro m hm
      have hmne : m ≠ n := fun hEq => hnotmem (hEq ▸ hm)
      have := hops m (List.mem_cons_of_mem n hm) hmne
      simp [this]
    · have hpred := hops n (List.mem_cons_self n rest) hn
      rw [List.filter_cons_of_pos (by simp [hpred])]
      rw [List.erase_cons_tail]
      · rw [ih hndrest (fun m hm hmne => hops m (List.mem_cons_of_mem n hm) hmne)]
      · simp [hn]

/-! ## Claim theorems -/

/-- Claim C1: the claim asserts that every document failing the
Precondition Gate — including one missing the top-level `jobs` key —
yields a pass verdict with an empty failure list.  The code contradicts
this for the missing-`jobs` mode: `run_checks` evaluates
`self.action["jobs"]` before calling the gate, so a document without
`jobs` raises `KeyError` instead of passing (first conjunct), while the
other gate-failure modes (missing `name`/`on`, a job without `steps`) do
return a pass verdict with an empty failure list (remaining
conjuncts). -/
theorem claim_C1_missing_jobs_raises :
    run_checks [] false (Val.dict [("name", Val.str "ci"), ("on", Val.str "push")]) =
      .error "KeyError"
    ∧ run_checks [] false (Val.dict [("on", Val.str "push"), ("jobs", Val.dict [])]) =
      .ok (true, [])
    ∧ run_checks [] false (Val.dict [("name", Val.str "ci"), ("on", Val.str "push"),
        ("jobs", Val.dict [("build", Val.dict [])])]) = .ok (true, []) :=
  ⟨rfl, rfl, rfl⟩

/-- Claim C2: the claim states the non-OIDC AWS credential rule fails iff
a matching step's `with` inputs include a long-lived-credential input,
and that an OIDC-only step is not a match.  The code contradicts this:
the `any(...)` membership test only guards the verbose diagnostic, and
`passed` is cleared whenever the action reference matches at all.  Here a
step whose `with` contains none of the `non_oidc_inputs` (first conjunct)
still makes the rule fail (second conjunct). -/
theorem claim_C2_oidc_only_step_still_fails :
    non_oidc_inputs.all (fun n => !(pyIn n c2with)) = true
    ∧ check_for_aws_configure_credentials_non_oidc c2jobs = .ok false :=
  ⟨rfl, rfl⟩

/-- Claim C3: the claim states that on gate-passing documents a step
lacking the field a rule inspects is simply not a match and no rule ever
raises.  The code contradicts this: the non-OIDC AWS rule reads
`step["with"]` unguarded once the action reference matches, so a matching
step without `with` raises `KeyError` (the document passes the gate,
first conjunct, yet the engine run raises, second conjunct). -/
theorem claim_C3_missing_with_raises :
    action_has_required_elements c3doc
      [("deploy", Val.dict [("steps", Val.list [Val.dict
        [("uses", Val.str "aws-actions/configure-aws-credentials@v1")]])])] = true
    ∧ run_checks [] false c3doc = .error "KeyError" :=
  ⟨rfl, rfl⟩

/-- Claim C4 counterexample: `"_check_for_pull_request_target"` is an
element of the sequence returned by `get_checks`, yet passing that exact
string in the suppressed set does not skip the rule — the run still
evaluates it and reports it failed, because the engine compares the
suppressed ids against `check[1:]` (the name without its leading
underscore). -/
theorem claim_C4_counterexample :
    "_check_for_pull_request_target" ∈ get_checks
    ∧ run_checks ["_check_for_pull_request_target"] false c4doc =
        .ok (false, ["_check_for_pull_request_target"]) :=
  ⟨by decide, rfl⟩

/-- Claim C4 (amended): for every rule id in `get_checks`, passing the id
with its leading underscore stripped (`id.drop 1`, the form the engine
compares against) causes that rule to be removed from the evaluated
registry, for either value of the ignore-warnings flag. -/
theorem claim_C4_stripped_id_suppresses :
    ∀ (iw : Bool) (X : String), X ∈ get_checks →
      X ∉ (applicable [X.drop 1] iw).map (fun p => p.1) := by decide

/-- Witness for C4: the inline-script rule id is in `get_checks` and is
absent from the evaluated registry once its stripped id is suppressed. -/
theorem claim_C4_witness :
    "_check_for_inline_script" ∈ get_checks
    ∧ "_check_for_inline_script" ∉
        (applicable ["_check_for_inline_script".drop 1] false).map (fun p => p.1) :=
  ⟨by decide, claim_C4_stripped_id_suppresses false "_check_for_inline_script" (by decide)⟩

/-- Claim C5 counterexample: with rule
X = `"_check_for_pull_request_target"` in the suppressed set, the failure
list still contains X — it is not the unsuppressed list with X removed
(which would be empty), so suppression keyed by the registry id does not
hold as claimed. -/
theorem claim_C5_counterexample :
    run_checks [] false c5doc = .ok (false, ["_check_for_pull_request_target"])
    ∧ run_checks ["_check_for_pull_request_target"] false c5doc =
        .ok (false, ["_check_for_pull_request_target"]) :=
  ⟨rfl, rfl⟩

/-- Claim C6: for every gate-passing document whose document-level
`permissions` is the literal `write-all`, the dangerous-write-permissions
rule fails, whatever the job-level permissions are: the rule returns
`False` before the job loop is reached. -/
theorem claim_C6_write_all_fails :
    ∀ (action : Val) (jobs : List (String × Val)),
      action_has_required_elements action jobs = true →
      pyGet action "permissions" = .ok (Val.str "write-all") →
      check_for_dangerous_write_permissions action jobs = .ok false := by
  intro action jobs _ hp
  have hin : pyIn "permissions" action = true := pyGet_ok_pyIn hp
  unfold check_for_dangerous_write_permissions
  rw [hin]
  simp [hp, Val.eqStr]

/-- Witness for C6 at a concrete document with job-level read-only
permissions. -/
theorem claim_C6_witness :
    action_has_required_elements c6doc c6jobs = true
    ∧ pyGet c6doc "permissions" = .ok (Val.str "write-all")
    ∧ check_for_dangerous_write_permissions c6doc c6jobs = .ok false :=
  ⟨rfl, rfl, claim_C6_write_all_fails c6doc c6jobs rfl rfl⟩

/-- Claim C9: on every document whose `on` lookup succeeds (in particular
every gate-passing document), the pull_request_target rule returns the
negation of the spec-side trigger predicate: it fails exactly when the
trigger spec includes `pull_request_target`, in all three shapes (string
equality, sequence element, mapping key). -/
theorem claim_C9_prt_iff :
    ∀ (action ev : Val), pyGet action "on" = .ok ev →
      check_for_pull_request_target action = .ok (!(triggerIncludesPRT ev)) :=
  fun _ _ h => prt_result h

/-- Witness for C9: the rule fails on all three trigger shapes containing
`pull_request_target` and passes on a plain `push` trigger. -/
theorem claim_C9_witness :
    check_for_pull_request_target (Val.dict [("on", Val.str "pull_request_target")]) = .ok false
    ∧ check_for_pull_request_target
        (Val.dict [("on", Val.list [Val.str "push", Val.str "pull_request_target"])]) = .ok false
    ∧ check_for_pull_request_target
        (Val.dict [("on", Val.dict [("pull_request_target", Val.dict [])])]) = .ok false
    ∧ check_for_pull_request_target (Val.dict [("on", Val.str "push")]) = .ok true := by
  refine ⟨?_, ?_, ?_, ?_⟩
  · simpa using claim_C9_prt_iff (Val.dict [("on", Val.str "pull_request_target")])
      (Val.str "pull_request_target") rfl
  · simpa using claim_C9_prt_iff
      (Val.dict [("on", Val.list [Val.str "push", Val.str "pull_request_target"])])
      (Val.list [Val.str "push", Val.str "pull_request_target"]) rfl
  · simpa using claim_C9_prt_iff
      (Val.dict [("on", Val.dict [("pull_request_target", Val.dict [])])])
      (Val.dict [("pull_request_target", Val.dict [])]) rfl
  · simpa using claim_C9_prt_iff (Val.dict [("on", Val.str "push")]) (Val.str "push") rfl

/-- On a step list all of whose `uses` values are SHA-pinned strings, the
inner loop of the pinning rule finds no version-tagged step. -/
lemma findVersionedStep_ok_false (sl : List Val)
    (h : ∀ st ∈ sl, pyIn "uses" st = true →
      ∃ u, pyGet st "uses" = .ok (Val.str u) ∧ shaPinned u = true) :
    findVersionedStep sl = .ok false := by
  induction sl with
  | nil => rfl
  | cons st rest ih =>
    have hrest := ih (fun st' h' hin => h st' (List.mem_cons_of_mem st h') hin)
    by_cases hin : pyIn "uses" st = true
    · obtain ⟨u, hu, hsha⟩ := h st (List.mem_cons_self st rest) hin
      have hsearch : searchActionVersion u = false := shaPinned_search_false hsha
      simp [findVersionedStep, hin, hu, asStr, hsearch, hrest]
    · simp [findVersionedStep, Bool.eq_false_iff.mpr hin, hrest]

/-- Claim C7: for every jobs mapping in which each job's `steps` value
exists and every step that has a `uses` key carries a string reference
pinned by a 40-character hex commit SHA (`shaPinned`, which excludes any
`@vX[.Y[.Z]]` version tag), the third-party-pinning rule passes. -/
theorem claim_C7_sha_pinned_passes :
    ∀ (jobs : List (String × Val)),
      (∀ p ∈ jobs, ∃ sv, pyGet p.2 "steps" = .ok sv ∧
        ∀ st ∈ pyIterL sv, pyIn "uses" st = true →
          ∃ u, pyGet st "uses" = .ok (Val.str u) ∧ shaPinned u = true) →
      check_for_3p_actions_without_hash jobs = .ok true := by
  intro jobs
  induction jobs with
  | nil => intro _; rfl
  | cons p rest ih =>
    intro h
    obtain ⟨j, jv⟩ := p
    obtain ⟨sv, hsv, hsteps⟩ := h (j, jv) (List.mem_cons_self (j, jv) rest)
    have hrest := ih (fun q hq => h q (List.mem_cons_of_mem (j, jv) hq))
    have hfind := findVersionedStep_ok_false (pyIterL sv) hsteps
    simp [check_for_3p_actions_without_hash, hsv, hfind, hrest]

/-- Witness for C7: a concrete SHA-pinned document on which the pinning
rule passes. -/
theorem claim_C7_witness :
    shaPinned "actions/checkout@8f4b7f84864484a7bf31766abe9204da3cbe65b3" = true
    ∧ check_for_3p_actions_without_hash c7jobs = .ok true := by
  constructor
  · decide
  · apply claim_C7_sha_pinned_passes
    intro p hp
    simp only [c7jobs, List.mem_cons, List.not_mem_nil, or_false] at hp
    subst hp
    refine ⟨Val.list
      [Val.dict [("uses", Val.str "actions/checkout@8f4b7f84864484a7bf31766abe9204da3cbe65b3")],
       Val.dict [("run", Val.str "make")]], rfl, ?_⟩
    intro st hst hin
    simp only [pyIterL, List.mem_cons, List.not_mem_nil, or_false] at hst
    rcases hst with hst | hst
    · subst hst
      exact ⟨"actions/checkout@8f4b7f84864484a7bf31766abe9204da3cbe65b3", rfl, by decide⟩
    · subst hst
      exact absurd hin (by decide)

/-- When the jobs value is a dict and the gate passes, `run_checks` is
the post-processing of the evaluation loop. -/
lemma run_checks_eval {ign : List String} {iw : Bool} {action : Val}
    {jobs : List (String × Val)}
    (hj : pyGet action "jobs" = .ok (Val.dict jobs))
    (hg : action_has_required_elements action jobs = true) :
    run_checks ign iw action =
      match evalChecks action jobs (applicable ign iw) with
      | .error e => .error e
      | .ok fails => .ok (fails.isEmpty, fails) := by
  unfold run_checks
  rw [hj]
  simp [hg]

/-- When the gate fails, `run_checks` returns pass with an empty list. -/
lemma run_checks_gate_false {ign : List String} {iw : Bool} {action : Val}
    {jobs : List (String × Val)}
    (hj : pyGet action "jobs" = .ok (Val.dict jobs))
    (hg : action_has_required_elements action jobs = false) :
    run_checks ign iw action = .ok (true, []) := by
  unfold run_checks
  rw [hj]
  simp [hg]

/-- A run that returns a verdict found a dict `jobs` value. -/
lemma run_checks_ok_inv {ign : List String} {iw : Bool} {action : Val}
    {r : Bool × List String}
    (h : run_checks ign iw action = .ok r) :
    ∃ jobs, pyGet action "jobs" = .ok (Val.dict jobs) := by
  unfold run_checks at h
  cases hj : pyGet action "jobs" with
  | error e => rw [hj] at h; cases h
  | ok jv =>
    rw [hj] at h
    cases jv with
    | str s => cases h
    | list xs => cases h
    | dict jobs => exact ⟨jobs, rfl⟩

/-- Claim C5 (amended): suppression is keyed by the rule ids with the
leading underscore stripped.  First part: for every document whose
unsuppressed run returns a verdict and every registry rule X, running
with `X.drop 1` in the suppressed set yields the unsuppressed failure
list with X removed (whether or not X failed), and the corresponding
verdict.  Second part: any run with every underscore-stripped id
suppressed that returns a verdict returns pass with an empty list. -/
theorem claim_C5_suppression :
    (∀ (action : Val) (iw : Bool) (X : String), X ∈ get_checks →
      ∀ (b : Bool) (fails : List String),
        run_checks [] iw action = .ok (b, fails) →
        run_checks [X.drop 1] iw action = .ok ((fails.erase X).isEmpty, fails.erase X))
    ∧ (∀ (action : Val) (r : Bool × List String),
        run_checks (get_checks.map (fun n => n.drop 1)) false action = .ok r →
        r = (true, [])) := by
  constructor
  · intro action iw X hX b fails h
    obtain ⟨jobs, hj⟩ := run_checks_ok_inv h
    by_cases hg : action_has_required_elements action jobs = true
    · rw [run_checks_eval hj hg] at h
      cases he : evalChecks action jobs (applicable [] iw) with
      | error e => rw [he] at h; cases h
      | ok f =>
        rw [he] at h
        cases h
        rw [run_checks_eval hj hg]
        rw [applicable_single (X.drop 1) iw]
        rw [evalChecks_filter action jobs (fun n => !(X.drop 1 == n.drop 1))
          (applicable [] iw) fails he]
        have hsubl : fails.Sublist get_checks := by
          have h1 := evalChecks_sublist action jobs (applicable [] iw) fails he
          have h2 : (applicable [] iw).Sublist checksList := by
            unfold applicable
            exact List.filter_sublist checksList
          exact h1.trans (h2.map (fun p => p.1))
        have hnd : fails.Nodup := hsubl.nodup get_checks_nodup
        have hops : ∀ n ∈ fails, n ≠ X → (X.drop 1 == n.drop 1) = false := by
          intro n hn hne
          cases hbeq : X.drop 1 == n.drop 1 with
          | false => rfl
          | true =>
            have heq : X.drop 1 = n.drop 1 := by simpa using hbeq
            have hXn : X = n := get_checks_drop_inj X hX n (hsubl.subset hn) heq
            exact absurd hXn.symm hne
        rw [filter_eq_erase fails X hnd hops]
    · have hgf : action_has_required_elements action jobs = false :=
        Bool.eq_false_iff.mpr hg
      rw [run_checks_gate_false hj hgf] at h
      cases h
      rw [run_checks_gate_false hj hgf]
      rfl
  · intro action r h
    obtain ⟨jobs, hj⟩ := run_checks_ok_inv h
    by_cases hg : action_has_required_elements action jobs = true
    · rw [run_checks_eval hj hg] at h
      have happ : applicable (get_checks.map (fun n => n.drop 1)) false = [] := by decide
      rw [happ] at h
      rw [show evalChecks action jobs [] = .ok ([] : List String) from rfl] at h
      cases h
      rfl
    · rw [run_checks_gate_false hj (Bool.eq_false_iff.mpr hg)] at h
      cases h
      rfl

/-- Witness for C5: on the concrete `pull_request_target` document, the
unsuppressed run fails with exactly that rule, and suppressing its
stripped id removes it from the failure list, yielding a pass verdict. -/
theorem claim_C5_witness :
    "_check_for_pull_request_target" ∈ get_checks
    ∧ run_checks [] false c5doc = .ok (false, ["_check_for_pull_request_target"])
    ∧ run_checks ["_check_for_pull_request_target".drop 1] false c5doc =
        .ok ((["_check_for_pull_request_target"].erase "_check_for_pull_request_target").isEmpty,
             ["_check_for_pull_request_target"].erase "_check_for_pull_request_target") :=
  ⟨by decide, rfl,
   claim_C5_suppression.1 c5doc false "_check_for_pull_request_target" (by decide) false
     ["_check_for_pull_request_target"] rfl⟩

/-- Claim C8: for every document whose unsuppressed run returns a verdict
and whose failed rules all have WARN severity, running with the
suppress-all-WARN flag yields an overall pass verdict with an empty
failure list. -/
theorem claim_C8_warn_filtering :
    ∀ (action : Val) (b : Bool) (fails : List String),
      run_checks [] false action = .ok (b, fails) →
      (∀ n ∈ fails, levelOf n = some "WARN") →
      run_checks [] true action = .ok (true, []) := by
  intro action b fails h hW
  obtain ⟨jobs, hj⟩ := run_checks_ok_inv h
  by_cases hg : action_has_required_elements action jobs = true
  · rw [run_checks_eval hj hg] at h
    cases he : evalChecks action jobs (applicable [] false) with
    | error e => rw [he] at h; cases h
    | ok f =>
      rw [he] at h
      cases h
      rw [run_checks_eval hj hg]
      have happ : applicable [] true =
          (applicable [] false).filter (fun p => failLevelName p.1) := by decide
      rw [happ]
      rw [evalChecks_filter action jobs failLevelName (applicable [] false) fails he]
      have hempty : fails.filter failLevelName = [] := by
        apply filter_all_false
        intro n hn
        have hWn := hW n hn
        simp [failLevelName, hWn]
      rw [hempty]
      rfl
  · rw [run_checks_gate_false hj (Bool.eq_false_iff.mpr hg)]

/-- Witness for C8: the inline-script-only document fails exactly the
WARN-severity inline-script rule without suppression, and passes with the
WARN filter on. -/
theorem claim_C8_witness :
    run_checks [] false c8doc = .ok (false, ["_check_for_inline_script"])
    ∧ run_checks [] true c8doc = .ok (true, []) :=
  ⟨rfl, claim_C8_warn_filtering c8doc false ["_check_for_inline_script"] rfl (by decide)⟩

/-- Claim C10: every document with `name` and `on` present and `jobs`
equal to an empty mapping passes the gate (per-job `steps` holds
vacuously); with a trigger including `pull_request_target` and a
document-level `permissions` of a shape the data model allows (absent,
the `write-all` literal, or a mapping), the run returns an overall fail
verdict whose failure list contains the pull_request_target rule (and at
most additionally the dangerous-write-permissions rule), while every
per-job/per-step rule passes vacuously on the empty jobs mapping. -/
theorem claim_C10_empty_jobs :
    ∀ (action ev : Val),
      pyGet action "jobs" = .ok (Val.dict []) →
      pyIn "name" action = true →
      pyIn "on" action = true →
      pyGet action "on" = .ok ev →
      triggerIncludesPRT ev = true →
      (pyIn "permissions" action = true →
        ∃ p, pyGet action "permissions" = .ok p ∧ permsShaped p = true) →
      action_has_required_elements action [] = true
      ∧ (run_checks [] false action = .ok (false, ["_check_for_pull_request_target"])
         ∨ run_checks [] false action =
             .ok (false, ["_check_for_dangerous_write_permissions",
                          "_check_for_pull_request_target"]))
      ∧ check_for_3p_actions_without_hash [] = .ok true
      ∧ check_for_allow_unsecure_commands [] = .ok true
      ∧ check_for_cache_action_usage [] = .ok true
      ∧ check_for_inline_script [] = .ok true
      ∧ check_for_script_injection [] = .ok true
      ∧ check_for_self_hosted_runners [] = .ok true
      ∧ check_for_aws_configure_credentials_non_oidc [] = .ok true
      ∧ check_for_pull_request_create_or_approve [] = .ok true := by
  intro action ev hj hname hon hev hincl hperm
  have hgate : action_has_required_elements action [] = true := by
    unfold action_has_required_elements
    simp [hname, hon, pyGet_ok_pyIn hj]
  have hprt : check_for_pull_request_target action = .ok false := by
    rw [prt_result hev, hincl]
    rfl
  have hpermres : ∃ bp, check_for_dangerous_write_permissions action [] = .ok bp := by
    by_cases hin : pyIn "permissions" action = true
    · obtain ⟨p, hpg, hps⟩ := hperm hin
      cases p with
      | str s =>
        have hs : s = "write-all" := by simpa [permsShaped] using hps
        subst hs
        exact ⟨false, by simp [check_for_dangerous_write_permissions, hin, hpg, Val.eqStr]⟩
      | list xs => simp [permsShaped] at hps
      | dict kvs =>
        obtain ⟨sb, hsw⟩ := scopeWrite_dict_ok kvs dangerous_scopes
        cases sb with
        | true =>
          exact ⟨false, by
            simp [check_for_dangerous_write_permissions, hin, hpg, Val.eqStr, hsw]⟩
        | false =>
          exact ⟨true, by
            simp [check_for_dangerous_write_permissions, hin, hpg, Val.eqStr, hsw, permsJobs]⟩
    · have hin' : pyIn "permissions" action = false := Bool.eq_false_iff.mpr hin
      exact ⟨true, by simp [check_for_dangerous_write_permissions, hin', permsJobs]⟩
  obtain ⟨bp, hperm4⟩ := hpermres
  have r1 : runCheck action [] "_check_for_3p_actions_without_hash" = .ok true := rfl
  have r2 : runCheck action [] "_check_for_allow_unsecure_commands" = .ok true := rfl
  have r3 : runCheck action [] "_check_for_cache_action_usage" = .ok true := rfl
  have r4 : runCheck action [] "_check_for_dangerous_write_permissions" = .ok bp := hperm4
  have r5 : runCheck action [] "_check_for_inline_script" = .ok true := rfl
  have r6 : runCheck action [] "_check_for_pull_request_target" = .ok false := hprt
  have r7 : runCheck action [] "_check_for_script_injection" = .ok true := rfl
  have r8 : runCheck action [] "_check_for_self_hosted_runners" = .ok true := rfl
  have r9 : runCheck action [] "_check_for_aws_configure_credentials_non_oidc" = .ok true := rfl
  have r10 : runCheck action [] "_check_for_pull_request_create_or_approve" = .ok true := rfl
  refine ⟨hgate, ?_, rfl, rfl, rfl, rfl, rfl, rfl, rfl, rfl⟩
  have heval : evalChecks action [] checksList =
      .ok (if bp then ["_check_for_pull_request_target"]
           else ["_check_for_dangerous_write_permissions",
                 "_check_for_pull_request_target"]) := by
    cases bp with
    | true => simp [checksList, evalChecks, r1, r2, r3, r4, r5, r6, r7, r8, r9, r10]
    | false => simp [checksList, evalChecks, r1, r2, r3, r4, r5, r6, r7, r8, r9, r10]
  rw [run_checks_eval hj hgate, applicable_nil_false, heval]
  cases bp with
  | true => left; rfl
  | false => right; rfl

/-- Witness for C10: the concrete minimal document with empty jobs and a
string `pull_request_target` trigger yields the fail verdict with exactly
that rule. -/
theorem claim_C10_witness :
    pyGet c10doc "jobs" = .ok (Val.dict [])
    ∧ run_checks [] false c10doc = .ok (false, ["_check_for_pull_request_target"]) := by
  refine ⟨rfl, ?_⟩
  have h := claim_C10_empty_jobs c10doc (Val.str "pull_request_target") rfl rfl rfl rfl
    (by decide) (fun hin => absurd hin (by decide))
  rcases h.2.1 with hx | hx
  · exact hx
  · exfalso
    have hne : run_checks [] false c10doc =
        .ok (false, ["_check_for_pull_request_target"]) := rfl
    rw [hne] at hx
    simp at hx

end Ghast
